import Mathlib

/-!
Verification of the item-intelligence layer of the ShoppingListAI repository:
the keyword categorizer (`src/utils/categories.js`), the suggestion engine
(`src/services/suggestions.js`) and the recipe-text parser
(`src/services/recipes.js`), shallowly embedded as executable Lean functions.
JavaScript strings are modelled as Lean `String`; the ASCII fragments of
`toLowerCase`/`toUpperCase`/`trim` and the concrete regular expressions used by
the source are implemented directly on the character lists.
-/

namespace ShoppingListAI

/-- Characters treated as whitespace by the JS `\s` class and `trim`
(ASCII fragment: space, tab, newline, carriage return, vertical tab, form feed). -/
def jsIsSpace (c : Char) : Bool :=
  c == ' ' || c == '\t' || c == '\n' || c == '\r' || c.toNat == 11 || c.toNat == 12

/-- ASCII fragment of JS `String.prototype.toLowerCase`, one character. -/
def jsLowerChar (c : Char) : Char :=
  if 65 ≤ c.toNat ∧ c.toNat ≤ 90 then Char.ofNat (c.toNat + 32) else c

/-- ASCII fragment of JS `String.prototype.toUpperCase`, one character. -/
def jsUpperChar (c : Char) : Char :=
  if 97 ≤ c.toNat ∧ c.toNat ≤ 122 then Char.ofNat (c.toNat - 32) else c

/-- JS `s.toLowerCase()` (ASCII fragment). -/
def jsLower (s : String) : String :=
  ⟨s.data.map jsLowerChar⟩

/-- JS `s.trim()`. -/
def jsTrim (s : String) : String :=
  ⟨((s.data.dropWhile jsIsSpace).reverse.dropWhile jsIsSpace).reverse⟩

/-- Does the list start with the given pattern (exact characters)? -/
def startsWithList (pat : List Char) : List Char → Bool
  | [] => pat.isEmpty
  | c :: cs =>
    match pat with
    | [] => true
    | p :: ps => p == c && startsWithList ps cs

/-- Does the list contain the pattern as a contiguous sublist?
Implements JS `s.includes(pat)`. -/
def containsList (pat : List Char) : List Char → Bool
  | [] => pat.isEmpty
  | c :: cs => startsWithList pat (c :: cs) || containsList pat cs

/-- JS `s.includes(pat)` on strings. -/
def strContains (s pat : String) : Bool :=
  containsList pat.data s.data

/-- Case-insensitive prefix test: the pattern is already lowercase, the
scanned characters are lowered before comparison (JS `i` regex flag). -/
def startsWithCI (pat : List Char) : List Char → Bool
  | [] => pat.isEmpty
  | c :: cs =>
    match pat with
    | [] => true
    | p :: ps => p == jsLowerChar c && startsWithCI ps cs

/-- Worker for `jsSplitWs`: `inTok` is true at the start of the string and
right after a non-space character, so that a leading whitespace run emits the
empty first token exactly as JS `split(/\s+/)` does. -/
def splitWsAux (inTok : Bool) (cur : List Char) : List Char → List (List Char)
  | [] => [cur.reverse]
  | c :: cs =>
    if jsIsSpace c then
      if inTok then cur.reverse :: splitWsAux false [] cs
      else splitWsAux false [] cs
    else splitWsAux true (c :: cur) cs

/-- JS `s.split(/\s+/)`: split on maximal whitespace runs; a leading or
trailing run contributes an empty token, and `""` splits to `[""]`. -/
def jsSplitWs (s : String) : List String :=
  (splitWsAux true [] s.data).map (fun l => ⟨l⟩)

/-- Worker for `jsSplitOn`. -/
def splitCharAux (delim : Char) (cur : List Char) : List Char → List (List Char)
  | [] => [cur.reverse]
  | c :: cs =>
    if c == delim then cur.reverse :: splitCharAux delim [] cs
    else splitCharAux delim (c :: cur) cs

/-- JS `s.split(delim)` for a single delimiter character. -/
def jsSplitOn (s : String) (delim : Char) : List String :=
  (splitCharAux delim [] s.data).map (fun l => ⟨l⟩)

/-! ## Category registry and categorizer (`src/utils/categories.js`) -/

/-- The `CATEGORIES` object: (constant name, category key) pairs in
declaration order; `Object.values` of it is the second projection. -/
def CATEGORIES : List (String × String) :=
  [("PRODUCE", "produce"), ("DAIRY", "dairy"), ("MEAT", "meat"),
   ("BAKERY", "bakery"), ("FROZEN", "frozen"), ("PANTRY", "pantry"),
   ("BEVERAGES", "beverages"), ("SNACKS", "snacks"), ("CONDIMENTS", "condiments"),
   ("HOUSEHOLD", "household"), ("PERSONAL_CARE", "personal_care"), ("OTHER", "other")]

/-- The `KEYWORD_MAP` object literal, as an association list in declaration
order (JS object own-string-key iteration order for these keys). -/
def KEYWORD_MAP : List (String × String) :=
  [("apple", "produce"), ("apples", "produce"), ("banana", "produce"),
   ("bananas", "produce"), ("lettuce", "produce"), ("tomato", "produce"),
   ("tomatoes", "produce"), ("onion", "produce"), ("onions", "produce"),
   ("garlic", "produce"), ("potato", "produce"), ("potatoes", "produce"),
   ("carrot", "produce"), ("carrots", "produce"), ("broccoli", "produce"),
   ("spinach", "produce"), ("avocado", "produce"), ("avocados", "produce"),
   ("cucumber", "produce"), ("peppers", "produce"), ("pepper", "produce"),
   ("celery", "produce"), ("mushroom", "produce"), ("mushrooms", "produce"),
   ("lemon", "produce"), ("lemons", "produce"), ("lime", "produce"),
   ("limes", "produce"), ("orange", "produce"), ("oranges", "produce"),
   ("berries", "produce"), ("strawberries", "produce"), ("blueberries", "produce"),
   ("grapes", "produce"), ("kale", "produce"), ("zucchini", "produce"),
   ("corn", "produce"), ("ginger", "produce"), ("cilantro", "produce"),
   ("parsley", "produce"), ("basil", "produce"), ("mint", "produce"),
   ("jalapeÃ±o", "produce"), ("jalapeno", "produce"),
   ("milk", "dairy"), ("cheese", "dairy"), ("yogurt", "dairy"),
   ("butter", "dairy"), ("cream", "dairy"), ("eggs", "dairy"), ("egg", "dairy"),
   ("sour cream", "dairy"), ("cream cheese", "dairy"), ("cottage cheese", "dairy"),
   ("mozzarella", "dairy"), ("parmesan", "dairy"), ("cheddar", "dairy"),
   ("chicken", "meat"), ("beef", "meat"), ("pork", "meat"), ("steak", "meat"),
   ("salmon", "meat"), ("shrimp", "meat"), ("turkey", "meat"), ("bacon", "meat"),
   ("sausage", "meat"), ("ground beef", "meat"), ("ground turkey", "meat"),
   ("fish", "meat"), ("tuna", "meat"), ("lamb", "meat"), ("ham", "meat"),
   ("bread", "bakery"), ("bagel", "bakery"), ("bagels", "bakery"),
   ("tortilla", "bakery"), ("tortillas", "bakery"), ("rolls", "bakery"),
   ("buns", "bakery"), ("croissant", "bakery"), ("muffin", "bakery"),
   ("muffins", "bakery"), ("pita", "bakery"),
   ("ice cream", "frozen"), ("frozen pizza", "frozen"),
   ("frozen vegetables", "frozen"), ("frozen fruit", "frozen"),
   ("frozen berries", "frozen"),
   ("rice", "pantry"), ("pasta", "pantry"), ("flour", "pantry"),
   ("sugar", "pantry"), ("salt", "pantry"), ("oil", "pantry"),
   ("olive oil", "pantry"), ("vegetable oil", "pantry"), ("coconut oil", "pantry"),
   ("beans", "pantry"), ("lentils", "pantry"), ("oats", "pantry"),
   ("cereal", "pantry"), ("peanut butter", "pantry"), ("canned tomatoes", "pantry"),
   ("tomato paste", "pantry"), ("tomato sauce", "pantry"),
   ("chicken broth", "pantry"), ("broth", "pantry"), ("noodles", "pantry"),
   ("quinoa", "pantry"), ("baking soda", "pantry"), ("baking powder", "pantry"),
   ("vanilla", "pantry"), ("honey", "pantry"), ("vinegar", "pantry"),
   ("nuts", "pantry"), ("almonds", "pantry"), ("walnuts", "pantry"),
   ("water", "beverages"), ("juice", "beverages"), ("coffee", "beverages"),
   ("tea", "beverages"), ("soda", "beverages"), ("wine", "beverages"),
   ("beer", "beverages"),
   ("chips", "snacks"), ("crackers", "snacks"), ("cookies", "snacks"),
   ("popcorn", "snacks"), ("granola", "snacks"), ("granola bars", "snacks"),
   ("pretzels", "snacks"), ("chocolate", "snacks"),
   ("ketchup", "condiments"), ("mustard", "condiments"), ("mayo", "condiments"),
   ("mayonnaise", "condiments"), ("soy sauce", "condiments"),
   ("hot sauce", "condiments"), ("salsa", "condiments"),
   ("salad dressing", "condiments"), ("bbq sauce", "condiments"),
   ("sriracha", "condiments"),
   ("paper towels", "household"), ("toilet paper", "household"),
   ("trash bags", "household"), ("dish soap", "household"),
   ("laundry detergent", "household"), ("sponge", "household"),
   ("aluminum foil", "household"), ("plastic wrap", "household"),
   ("shampoo", "personal_care"), ("conditioner", "personal_care"),
   ("soap", "personal_care"), ("toothpaste", "personal_care"),
   ("deodorant", "personal_care"), ("lotion", "personal_care")]

/-- A user-defined custom category record (`{key, name, color, keywords, order}`). -/
structure CustomCategory where
  key : String
  name : String
  color : String
  keywords : List String
  order : Int
deriving DecidableEq, Repr

/-- Association-list lookup, first match wins; models the own-property part
of the JS property access `KEYWORD_MAP[k]` (all stored values are nonempty
strings, hence truthy).  A real bracket access also consults the
`Object.prototype` chain; `jsIndexAccess` below adds that part, and
`categorizeItemJs` is the categorizer under the full access semantics. -/
def kwLookup : List (String × String) → String → Option String
  | [], _ => none
  | (k, v) :: rest, key => if k == key then some v else kwLookup rest key

/-- The inner keyword loop of `categorizeItem`'s custom-category pass: for
each keyword in order, test exact equality, then (for multi-word keywords)
substring containment. -/
def kwExactOrPhrase (normalized : String) : List String → Bool
  | [] => false
  | keyword :: rest =>
    let kw := jsLower keyword
    if normalized == kw then true
    else if strContains kw " " && strContains normalized kw then true
    else kwExactOrPhrase normalized rest

/-- The single-word fallback of the custom-category pass: some word of the
normalized name equals some (lowercased) keyword of the category. -/
def wordTokenMatch (normalized : String) (keywords : List String) : Bool :=
  (jsSplitWs normalized).any (fun word =>
    keywords.any (fun keyword => word == jsLower keyword))

/-- The `for (const cat of customCategories)` loop of `categorizeItem`: the
first category that matches by exact keyword, phrase containment, or word
token returns its key. -/
def categorizeCustom (normalized : String) : List CustomCategory → Option String
  | [] => none
  | cat :: rest =>
    if kwExactOrPhrase normalized cat.keywords then some cat.key
    else if wordTokenMatch normalized cat.keywords then some cat.key
    else categorizeCustom normalized rest

/-- First word of the list that is a `KEYWORD_MAP` key yields its category. -/
def firstWordHit : List String → Option String
  | [] => none
  | w :: ws =>
    match kwLookup KEYWORD_MAP w with
    | some category => some category
    | none => firstWordHit ws

/-- The built-in portion of `categorizeItem`: exact `KEYWORD_MAP` hit, then
the declaration-order scan for multi-word phrase containment, then the
word-by-word lookup, then the `"other"` fallback. -/
def builtinCategorize (normalized : String) : String :=
  match kwLookup KEYWORD_MAP normalized with
  | some category => category
  | none =>
    match KEYWORD_MAP.find? (fun p => strContains p.1 " " && strContains normalized p.1) with
    | some p => p.2
    | none =>
      match firstWordHit (jsSplitWs normalized) with
      | some category => category
      | none => "other"

/-- `categorizeItem(itemName, customCategories = [])` from
`src/utils/categories.js`. -/
def categorizeItem (itemName : String) (customCategories : List CustomCategory := []) : String :=
  let normalized := jsTrim (jsLower itemName)
  match categorizeCustom normalized customCategories with
  | some key => key
  | none => builtinCategorize normalized

/-- `getAllCategoryKeys(customCategories = [])`: built-in keys in declaration
order with the custom keys spliced in at the index of `"other"`. -/
def getAllCategoryKeys (customCategories : List CustomCategory := []) : List String :=
  let builtIn := CATEGORIES.map (fun p => p.2)
  let customKeys := customCategories.map (fun cat => cat.key)
  let otherIndex := builtIn.findIdx (fun k => k == "other")
  builtIn.take otherIndex ++ customKeys ++ builtIn.drop otherIndex

example : categorizeItem "bread" = "bakery" := by decide
example : categorizeItem " BREAD " = "bakery" := by decide
example : categorizeItem "ground beef" = "meat" := by decide
example : categorizeItem "2% milk" = "dairy" := by decide
example : categorizeItem "" = "other" := by decide

/-! ## Faithful bracket-access semantics for the keyword table

`KEYWORD_MAP[k]` in JS is not a pure dictionary lookup: when `k` is not an
own property, the access walks the prototype chain and can hit a member of
`Object.prototype` — e.g. `KEYWORD_MAP["constructor"]` is the inherited
`constructor` function and `KEYWORD_MAP["__proto__"]` is the prototype
object, both truthy.  The definitions below model the two bracket-access
sites of `categorizeItem` (`KEYWORD_MAP[normalized]` and `KEYWORD_MAP[word]`)
with this behaviour; `Object.entries` iteration and the custom-category loop
touch only own properties and are unaffected. -/

/-- The string-keyed own properties of `Object.prototype` that a bracket
access on an object literal can reach; each holds a truthy non-string value
(a method, or for `__proto__` the prototype object itself).  Property keys
are case-sensitive, so after the categorizer's lowercasing only the
all-lowercase names (`constructor`, `__proto__`) remain reachable. -/
def objectProtoNames : List String :=
  ["constructor", "hasOwnProperty", "isPrototypeOf", "propertyIsEnumerable",
   "toLocaleString", "toString", "valueOf", "__defineGetter__",
   "__defineSetter__", "__lookupGetter__", "__lookupSetter__", "__proto__"]

/-- A value produced by a JS bracket access on the keyword table: an own
string property, a truthy value inherited from `Object.prototype` (tagged by
its property name), or `undefined`. -/
inductive JsProp where
  | strVal : String → JsProp
  | inherited : String → JsProp
  | undefinedVal : JsProp
deriving DecidableEq, Repr

/-- JS truthiness of such a value: a string is truthy when nonempty, every
inherited `Object.prototype` member is truthy, `undefined` is falsy. -/
def JsProp.truthy : JsProp → Bool
  | .strVal s => !s.isEmpty
  | .inherited _ => true
  | .undefinedVal => false

/-- Is the value an own-property string (and so possibly a category key)? -/
def JsProp.isStrVal : JsProp → Bool
  | .strVal _ => true
  | _ => false

/-- The JS bracket access `KEYWORD_MAP[k]` in full: an own property wins,
otherwise the access falls through to `Object.prototype`. -/
def jsIndexAccess (m : List (String × String)) (k : String) : JsProp :=
  match kwLookup m k with
  | some v => .strVal v
  | none => if objectProtoNames.contains k then .inherited k else .undefinedVal

/-- The word loop of `categorizeItem` under the full access semantics:
`if (KEYWORD_MAP[word]) return KEYWORD_MAP[word]`. -/
def firstWordHitJs : List String → JsProp
  | [] => .undefinedVal
  | w :: ws =>
    let v := jsIndexAccess KEYWORD_MAP w
    if v.truthy then v else firstWordHitJs ws

/-- The built-in portion of `categorizeItem` under the full access
semantics. -/
def builtinCategorizeJs (normalized : String) : JsProp :=
  let exact := jsIndexAccess KEYWORD_MAP normalized
  if exact.truthy then exact
  else
    match KEYWORD_MAP.find? (fun p => strContains p.1 " " && strContains normalized p.1) with
    | some p => .strVal p.2
    | none =>
      let hit := firstWordHitJs (jsSplitWs normalized)
      if hit.truthy then hit else .strVal "other"

/-- `categorizeItem(itemName, customCategories = [])` under the full JS
bracket-access semantics: identical to `categorizeItem` except that the two
accesses `KEYWORD_MAP[normalized]` and `KEYWORD_MAP[word]` can return a
truthy value inherited from `Object.prototype`, which the code then returns
in place of a category key. -/
def categorizeItemJs (itemName : String)
    (customCategories : List CustomCategory := []) : JsProp :=
  let normalized := jsTrim (jsLower itemName)
  match categorizeCustom normalized customCategories with
  | some key => .strVal key
  | none => builtinCategorizeJs normalized

example : categorizeItemJs "milk" = JsProp.strVal "dairy" := by decide
example : categorizeItemJs "constructor" = JsProp.inherited "constructor" := by decide

/-! ## Suggestion engine (`src/services/suggestions.js`) -/

/-- A shopping-history entry `{name, addedAt}`. -/
structure HistoryEntry where
  name : String
  addedAt : Nat
deriving DecidableEq, Repr

/-- A current-list item; the engine only reads its `name`. -/
structure CurrentItem where
  name : String
deriving DecidableEq, Repr

/-- A produced suggestion `{name, reason, category}`. -/
structure Suggestion where
  name : String
  reason : String
  category : String
deriving DecidableEq, Repr

/-- The static `ITEM_PAIRINGS` table, in declaration order. -/
def ITEM_PAIRINGS : List (String × String) :=
  [("bread", "butter"), ("pasta", "tomato sauce"), ("chips", "salsa"),
   ("hamburger buns", "ground beef"), ("hot dog buns", "hot dogs"),
   ("cereal", "milk"), ("peanut butter", "jelly"), ("eggs", "bacon"),
   ("lettuce", "tomatoes"), ("tortillas", "cheese"), ("rice", "beans"),
   ("spaghetti", "parmesan"), ("coffee", "cream"), ("crackers", "cheese"),
   ("avocado", "lime"), ("chicken", "rice"), ("salmon", "lemon"),
   ("steak", "potatoes")]

/-- One `freq.set(key, (freq.get(key) ?? 0) + 1)` step on an
insertion-ordered map (JS `Map` preserves first-insertion order). -/
def bumpFreq : List (String × Nat) → String → List (String × Nat)
  | [], key => [(key, 1)]
  | (k, c) :: rest, key =>
    if k == key then (k, c + 1) :: rest else (k, c) :: bumpFreq rest key

/-- `getItemFrequency(history)`: purchase count per lowercased name, keys in
first-insertion order. -/
def getItemFrequency (history : List HistoryEntry) : List (String × Nat) :=
  history.foldl (fun freq item => bumpFreq freq (jsLower item.name)) []

/-- Insert an entry after every earlier entry of greater-or-equal count;
combined with the left fold below this computes the unique stable sort by
descending count, which is what `sort((a, b) => b[1] - a[1])` produces
(JS `Array.prototype.sort` is stable). -/
def insertDescByCount (x : String × Nat) : List (String × Nat) → List (String × Nat)
  | [] => [x]
  | y :: ys => if x.2 ≤ y.2 then y :: insertDescByCount x ys else x :: y :: ys

/-- Stable sort by descending count. -/
def sortDescByCount (l : List (String × Nat)) : List (String × Nat) :=
  l.foldl (fun acc x => insertDescByCount x acc) []

/-- `getPairingSuggestions(currentItems)`: each loop iteration pushes the
missing partner of a pairing whose other half is present (both directions). -/
def getPairingSuggestions (currentItems : List CurrentItem) : List String :=
  let currentNames := currentItems.map (fun i => jsLower i.name)
  ITEM_PAIRINGS.flatMap (fun p =>
    (if currentNames.contains p.1 && !currentNames.contains p.2 then [p.2] else []) ++
    (if currentNames.contains p.2 && !currentNames.contains p.1 then [p.1] else []))

/-- The reason string `` `Purchased ${count} times before` ``. -/
def freqReason (count : Nat) : String :=
  "Purchased " ++ toString count ++ " times before"

/-- Keep the first occurrence of each element; models `[...new Set(list)]`. -/
def dedupFirstAux (seen : List String) : List String → List String
  | [] => []
  | x :: xs =>
    if seen.contains x then dedupFirstAux seen xs
    else x :: dedupFirstAux (x :: seen) xs

/-- `[...new Set(list)]` (first-occurrence order, exact string equality). -/
def dedupFirst (l : List String) : List String :=
  dedupFirstAux [] l

/-- The `(name, reason)` candidates offered to `addSuggestion`, in call
order: pairing candidates, then frequency candidates (top 20 by descending
count, count at least 2), then recency candidates (last 30 history entries,
most recent first, deduplicated). -/
def suggestionCandidates (history : List HistoryEntry) (currentItems : List CurrentItem) :
    List (String × String) :=
  let pairingCands := (getPairingSuggestions currentItems).map
    (fun name => (name, "Often bought together"))
  let sorted := (sortDescByCount (getItemFrequency history)).take 20
  let freqCands := (sorted.filter (fun p => 2 ≤ p.2)).map
    (fun p => (p.1, freqReason p.2))
  let recentNames := ((history.drop (history.length - 30)).reverse).map (fun i => i.name)
  let recentCands := (dedupFirst recentNames).map (fun name => (name, "Recently purchased"))
  pairingCands ++ freqCands ++ recentCands

/-- The `addSuggestion` closure of `getSuggestions`: state is the `seen` key
set and the suggestions accumulated so far; a candidate whose lowercased name
is already a current item or already seen is dropped, otherwise it is pushed
with its category from the categorizer (no custom categories). -/
def addSuggestion (currentNames : List String) (st : List String × List Suggestion)
    (cand : String × String) : List String × List Suggestion :=
  let key := jsLower cand.1
  if currentNames.contains key || st.1.contains key then st
  else (key :: st.1,
    st.2 ++ [{ name := cand.1, reason := cand.2, category := categorizeItem cand.1 }])

/-- The suggestion list built by `getSuggestions` before the final
`slice(0, maxSuggestions)`. -/
def getSuggestionsFull (history : List HistoryEntry) (currentItems : List CurrentItem) :
    List Suggestion :=
  let currentNames := currentItems.map (fun i => jsLower i.name)
  ((suggestionCandidates history currentItems).foldl (addSuggestion currentNames) ([], [])).2

/-- `getSuggestions(history, currentItems, maxSuggestions = 8)` from
`src/services/suggestions.js`. -/
def getSuggestions (history : List HistoryEntry) (currentItems : List CurrentItem)
    (maxSuggestions : Nat := 8) : List Suggestion :=
  (getSuggestionsFull history currentItems).take maxSuggestions

example : getSuggestions [] [] = [] := by decide
example :
    getSuggestions [⟨"Milk", 0⟩, ⟨"Milk", 1⟩] [] =
      [⟨"milk", "Purchased 2 times before", "dairy"⟩] := by decide
example :
    getSuggestions [] [⟨"Bread"⟩] =
      [⟨"butter", "Often bought together", "dairy"⟩] := by decide

/-! ## Recipe parser (`src/services/recipes.js`) -/

/-- A parsed shopping-list item `{id, name, category, isChecked}`.  The
source draws `id` from `uuidv4()`; the only property the surrounding code
relies on is freshness, modelled here by consecutive numbering within one
`parseRecipeText` call. -/
structure Item where
  id : Nat
  name : String
  category : String
  isChecked : Bool
deriving DecidableEq, Repr

/-- The `UNITS` regex alternatives, in declaration order; each alternative is
listed with the character sequences it can match, longest first, exactly the
backtracking order of the JS regex engine. -/
def UNITS : List (List String) :=
  [["cups", "cup"], ["cup"], ["tbsp"], ["tablespoons", "tablespoon"], ["tsp"],
   ["teaspoons", "teaspoon"], ["oz"], ["ounces", "ounce"], ["lbs", "lb"],
   ["pounds", "pound"], ["grams", "gram"], ["kg"], ["ml"], ["liters", "liter"],
   ["quarts", "quart"], ["pints", "pint"], ["gallons", "gallon"],
   ["cloves", "clove"], ["slices", "slice"], ["pieces", "piece"],
   ["cans", "can"], ["packages", "package"], ["bunches", "bunch"],
   ["heads", "head"], ["stalks", "stalk"], ["sprigs", "sprig"],
   ["pinches", "pinch"], ["dashes", "dash"], ["handfuls", "handful"]]

/-- The character class `[\d./\s-]` of the quantity patterns. -/
def isNumClass (c : Char) : Bool :=
  c.isDigit || c == '.' || c == '/' || jsIsSpace c || c == '-'

/-- Skip to just past the first `')'`, if any; the `.*?` of `/\(.*?\)/` is
non-greedy, so a parenthetical runs to the nearest closing parenthesis. -/
def dropThroughClose : List Char → Option (List Char)
  | [] => none
  | c :: cs => if c == ')' then some cs else dropThroughClose cs

/-- Worker for `removeParens`: every `(...)` span up to the nearest `')'` is
removed; an unmatched `'('` is kept.  Each step consumes at least one
character of the list while spending exactly one unit of fuel, so fuel equal
to the list length (as supplied by `removeParens`) never runs out. -/
def removeParensAux : Nat → List Char → List Char
  | 0, l => l
  | _ + 1, [] => []
  | fuel + 1, c :: cs =>
    if c == '(' then
      match dropThroughClose cs with
      | some rest => removeParensAux fuel rest
      | none => c :: removeParensAux fuel cs
    else c :: removeParensAux fuel cs

/-- JS `line.replace(/\(.*?\)/g, '')`.  (The lines this is applied to contain
no newline, so the `.`-excludes-newline rule never bites.) -/
def removeParens (s : String) : String :=
  ⟨removeParensAux s.data.length s.data⟩

/-- JS `line.replace(/,.*$/, '')`: drop everything from the first comma on
(applied to newline-free lines, where `.*$` always reaches the end). -/
def removeAfterComma (s : String) : String :=
  ⟨s.data.takeWhile (fun c => c != ',')⟩

/-- JS `cleaned.replace(/^[\d./\s-]+/, '')`. -/
def stripLeadingNumeric (s : String) : String :=
  ⟨s.data.dropWhile isNumClass⟩

/-- The optional `(?:of\s+)?` tail of the unit pattern. -/
def matchOptionalOf (l : List Char) : List Char :=
  match l with
  | c1 :: c2 :: rest =>
    if jsLowerChar c1 == 'o' && jsLowerChar c2 == 'f' &&
        !(rest.takeWhile jsIsSpace).isEmpty then
      rest.dropWhile jsIsSpace
    else l
  | _ => l

/-- Try one literal unit form: case-insensitive prefix, then the mandatory
`\s+`, then the optional `of\s+`; returns the remainder on success. -/
def matchOneForm (f : String) (rest : List Char) : Option (List Char) :=
  if startsWithCI f.data rest then
    let after := rest.drop f.length
    if (after.takeWhile jsIsSpace).isEmpty then none
    else some (matchOptionalOf (after.dropWhile jsIsSpace))
  else none

/-- Try the forms of one regex alternative in backtracking order. -/
def matchForms : List String → List Char → Option (List Char)
  | [], _ => none
  | f :: fs, rest =>
    match matchOneForm f rest with
    | some r => some r
    | none => matchForms fs rest

/-- Try the regex alternatives in declaration order. -/
def matchUnitForms : List (List String) → List Char → Option (List Char)
  | [], _ => none
  | alt :: alts, rest =>
    match matchForms alt rest with
    | some r => some r
    | none => matchUnitForms alts rest

/-- `UNIT_PATTERN = /^[\d./\s-]+(?:UNITS)\s+(?:of\s+)?/i`: a nonempty run of
the numeric class, then a unit word, then whitespace, then an optional `of`.
Returns the remainder after the matched prefix, or `none` when the pattern
does not match. -/
def matchUnitAt (s : List Char) : Option (List Char) :=
  let num := s.takeWhile isNumClass
  if num.isEmpty then none
  else matchUnitForms UNITS (s.dropWhile isNumClass)

/-- `cleaned.replace(UNIT_PATTERN, '')`. -/
def stripUnitWords (s : String) : String :=
  match matchUnitAt s.data with
  | some r => ⟨r⟩
  | none => s

/-- `stripQuantity(line)` from `src/services/recipes.js`. -/
def stripQuantity (line : String) : String :=
  let cleaned := jsTrim (removeAfterComma (removeParens line))
  let cleaned := jsTrim (stripLeadingNumeric cleaned)
  let cleaned := jsTrim (stripUnitWords cleaned)
  if cleaned.data.isEmpty then jsTrim (stripLeadingNumeric line)
  else cleaned

/-- `line.replace(/^[-*•]\s*/, '')`: one optional bullet character, then any
whitespace run. -/
def stripBullet : List Char → List Char
  | [] => []
  | c :: cs =>
    if c == '-' || c == '*' || c == '•' then cs.dropWhile jsIsSpace
    else c :: cs

/-- `/^(instructions|directions|steps|method)/i.test(line)`. -/
def isSectionHeader (line : String) : Bool :=
  ["instructions", "directions", "steps", "method"].any
    (fun h => startsWithCI h.data line.data)

/-- `name.charAt(0).toUpperCase() + name.slice(1)`. -/
def capFirst (s : String) : String :=
  match s.data with
  | [] => ""
  | c :: cs => ⟨jsUpperChar c :: cs⟩

/-- The accepting loop of `parseRecipeText`: `seen` is the set of lowercased
accepted names, `nextId` numbers the fresh ids. -/
def parseLines : List String → Nat → List String → List Item
  | [], _, _ => []
  | line :: rest, nextId, seen =>
    let name := stripQuantity line
    let key := jsLower name
    if key.length < 2 || seen.contains key then parseLines rest nextId seen
    else
      { id := nextId, name := capFirst name, category := categorizeItem name,
        isChecked := false } :: parseLines rest (nextId + 1) (key :: seen)

/-- `parseRecipeText(recipeText)` from `src/services/recipes.js`. -/
def parseRecipeText (recipeText : String) : List Item :=
  if (jsTrim recipeText).data.isEmpty then []
  else
    let lines := ((jsSplitOn recipeText '\n').map
        (fun line => jsTrim ⟨stripBullet line.data⟩)).filter
      (fun line => 0 < line.length && !isSectionHeader line)
    parseLines lines 0 []

example : parseRecipeText "" = [] := by decide
example :
    (parseRecipeText "2 cups flour\n1/2 lb ground beef, minced\n- 3 cloves garlic").map
        (fun i => i.name) =
      ["Cups flour", "Lb ground beef", "Cloves garlic"] := by decide

/-! ## Shared lemmas -/

/-- `jsLowerChar` is idempotent: a character produced by lowering is outside
the uppercase range. -/
theorem jsLowerChar_idem (c : Char) : jsLowerChar (jsLowerChar c) = jsLowerChar c := by
  unfold jsLowerChar
  by_cases h : 65 ≤ c.toNat ∧ c.toNat ≤ 90
  · rw [if_pos h]
    have ht : (Char.ofNat (c.toNat + 32)).toNat = c.toNat + 32 := by
      have h1 : 97 ≤ c.toNat + 32 := by omega
      have h2 : c.toNat + 32 ≤ 122 := by omega
      set n := c.toNat + 32 with hn
      clear_value n
      interval_cases n <;> rfl
    rw [if_neg]
    rw [ht]
    omega
  · rw [if_neg h, if_neg h]

/-- `jsLower` is idempotent. -/
theorem jsLower_idem (s : String) : jsLower (jsLower s) = jsLower s := by
  unfold jsLower
  refine congrArg String.mk ?_
  rw [List.map_map]
  exact List.map_congr_left (fun c _ => jsLowerChar_idem c)

/-- The custom-category loop is the first-match search over whole categories:
the first category (in caller order) that matches by exact keyword, phrase
containment, or word token wins. -/
theorem categorizeCustom_eq_find (normalized : String) (cats : List CustomCategory) :
    categorizeCustom normalized cats =
      (cats.find? (fun cat =>
        kwExactOrPhrase normalized cat.keywords || wordTokenMatch normalized cat.keywords)).map
        (fun cat => cat.key) := by
  induction cats with
  | nil => rfl
  | cons cat rest ih =>
    by_cases h1 : kwExactOrPhrase normalized cat.keywords
    · simp [categorizeCustom, List.find?, h1]
    · by_cases h2 : wordTokenMatch normalized cat.keywords
      · simp [categorizeCustom, List.find?, h1, h2]
      · simp [categorizeCustom, List.find?, h1, h2, ih]

/-- Unfolding lemma for `categorizeItem` with the `let` removed. -/
theorem categorizeItem_def (itemName : String) (cats : List CustomCategory) :
    categorizeItem itemName cats =
      (match categorizeCustom (jsTrim (jsLower itemName)) cats with
        | some key => key
        | none => builtinCategorize (jsTrim (jsLower itemName))) := rfl

/-- A successful custom match returns the key of a supplied category. -/
theorem categorizeCustom_some (normalized : String) (cats : List CustomCategory)
    (key : String) (h : categorizeCustom normalized cats = some key) :
    ∃ cat, cat ∈ cats ∧ key = cat.key := by
  rw [categorizeCustom_eq_find] at h
  rcases Option.map_eq_some'.mp h with ⟨cat, hfind, hkey⟩
  exact ⟨cat, List.mem_of_find?_eq_some hfind, hkey.symm⟩

/-- Every value stored in `KEYWORD_MAP` is a built-in category key. -/
theorem keywordMap_values_builtin :
    KEYWORD_MAP.all (fun p => (CATEGORIES.map (fun q => q.2)).contains p.2) = true := by
  decide

/-- An association-list hit returns a stored value. -/
theorem kwLookup_mem (m : List (String × String)) (k v : String)
    (h : kwLookup m k = some v) : ∃ p, p ∈ m ∧ p.2 = v := by
  induction m with
  | nil => simp [kwLookup] at h
  | cons q rest ih =>
    by_cases hq : q.1 == k
    · refine ⟨q, List.mem_cons_self .., ?_⟩
      rw [kwLookup.eq_def] at h
      simp [hq] at h
      exact h
    · rw [kwLookup.eq_def] at h
      simp [hq] at h
      rcases ih h with ⟨p, hp, hv⟩
      exact ⟨p, List.mem_cons_of_mem _ hp, hv⟩

/-- A word-loop hit returns a stored `KEYWORD_MAP` value. -/
theorem firstWordHit_mem (ws : List String) (v : String)
    (h : firstWordHit ws = some v) : ∃ p, p ∈ KEYWORD_MAP ∧ p.2 = v := by
  induction ws with
  | nil => simp [firstWordHit] at h
  | cons w rest ih =>
    have h' : (match kwLookup KEYWORD_MAP w with
        | some category => some category
        | none => firstWordHit rest) = some v := h
    split at h'
    · next c hl =>
      cases h'
      exact kwLookup_mem _ _ _ hl
    · exact ih h'

/-- The built-in categorizer only ever returns a built-in category key. -/
theorem builtinCategorize_mem (normalized : String) :
    builtinCategorize normalized ∈ CATEGORIES.map (fun q => q.2) := by
  have hvals : ∀ p, p ∈ KEYWORD_MAP → p.2 ∈ CATEGORIES.map (fun q => q.2) := by
    intro p hp
    have := List.all_eq_true.mp keywordMap_values_builtin p hp
    exact List.elem_iff.mp this
  unfold builtinCategorize
  split
  · next c h1 =>
    rcases kwLookup_mem _ _ _ h1 with ⟨p, hp, hv⟩
    exact hv ▸ hvals p hp
  · split
    · next p h2 =>
      exact hvals p (List.mem_of_find?_eq_some h2)
    · split
      · next c h3 =>
        rcases firstWordHit_mem _ _ h3 with ⟨p, hp, hv⟩
        exact hv ▸ hvals p hp
      · decide

/-- The pairing reason differs from every frequency reason. -/
theorem often_ne_freq (n : Nat) : "Often bought together" ≠ freqReason n := by
  intro h
  have hd := congrArg String.data h
  rw [freqReason] at hd
  have h2 := congrArg List.head? hd
  rw [String.data_append, String.data_append, List.head?_append] at h2
  simp at h2

/-- The recency reason differs from every frequency reason. -/
theorem recent_ne_freq (n : Nat) : "Recently purchased" ≠ freqReason n := by
  intro h
  have hd := congrArg String.data h
  rw [freqReason] at hd
  have h2 := congrArg List.head? hd
  rw [String.data_append, String.data_append, List.head?_append] at h2
  simp at h2

/-! ## Claims -/

/-- C1: on the input `"2 cups flour\n1/2 lb ground beef, minced\n- 3 cloves
garlic"` the parser is claimed to return items named `"Flour"`,
`"Ground beef"`, `"Garlic"`.  The code instead returns `"Cups flour"`,
`"Lb ground beef"`, `"Cloves garlic"`: `stripQuantity` removes the leading
numeric run first, after which `UNIT_PATTERN` — whose match mandatorily
begins with `[\d./\s-]+` — can no longer match, so the unit word survives.
This contradicts the function's own doc comment (`"2 cups flour" ->
"flour"`); the theorem records the actual behaviour at the failing input. -/
theorem parseRecipeText_sample_units_not_stripped :
    stripQuantity "2 cups flour" = "cups flour" ∧
    stripQuantity "1/2 lb ground beef" = "lb ground beef" ∧
    (parseRecipeText "2 cups flour\n1/2 lb ground beef, minced\n- 3 cloves garlic").map
        (fun i => i.name) =
      ["Cups flour", "Lb ground beef", "Cloves garlic"] ∧
    (parseRecipeText "2 cups flour\n1/2 lb ground beef, minced\n- 3 cloves garlic").map
        (fun i => i.isChecked) =
      [false, false, false] := by
  refine ⟨by decide, by decide, by decide, by decide⟩

/-- C7: the core functions are total on empty inputs: `parseRecipeText` maps
the empty and whitespace-only strings to `[]`, `categorizeItem` maps the
empty name (no custom categories) to `"other"`, and `getSuggestions` on empty
history and empty current items returns `[]`. -/
theorem core_total_on_empty :
    parseRecipeText "" = [] ∧
    parseRecipeText "   " = [] ∧
    parseRecipeText " \t\n " = [] ∧
    categorizeItem "" = "other" ∧
    getSuggestions [] [] = [] := by
  refine ⟨by decide, by decide, by decide, by decide, by decide⟩

/-- C6: `getAllCategoryKeys` returns the built-in keys in declaration order
with the custom keys, in caller order, spliced as a contiguous block
immediately before `"other"`; `"other"` is always last. -/
theorem getAllCategoryKeys_order (customCategories : List CustomCategory) :
    getAllCategoryKeys customCategories =
      (["produce", "dairy", "meat", "bakery", "frozen", "pantry", "beverages",
        "snacks", "condiments", "household", "personal_care"] ++
        customCategories.map (fun cat => cat.key)) ++ ["other"] ∧
    (getAllCategoryKeys customCategories).getLast? = some "other" := by
  constructor
  · rfl
  · show ((_ ++ _) ++ ["other"]).getLast? = some "other"
    exact List.getLast?_concat _

/-- C2 counterexample: `"ground beef"` exactly equals a (lowercased) keyword
of the second custom category, yet `categorizeItem` returns the key of the
first category, which matches only through its single-word token `"beef"` —
the custom stages are not applied globally in precedence order. -/
theorem categorize_exact_not_global_counterexample :
    "ground beef" ∈
      (CustomCategory.mk "custom_b" "B" "#000000" ["ground beef"] 1).keywords.map jsLower ∧
    jsTrim (jsLower "ground beef") = "ground beef" ∧
    categorizeItem "ground beef"
        [CustomCategory.mk "custom_a" "A" "#000000" ["beef"] 0,
         CustomCategory.mk "custom_b" "B" "#000000" ["ground beef"] 1] =
      "custom_a" ∧
    "custom_a" ≠ "custom_b" := by
  refine ⟨by decide, by decide, by decide, by decide⟩

/-- C2 amended: the custom stages are applied per category, not globally —
`categorizeItem` returns the key of the first custom category in
caller-supplied order that matches by exact keyword equality, multi-word
phrase containment, or single-word token, and falls back to the built-in
categorizer when none matches. -/
theorem categorizeItem_custom_per_category (itemName : String)
    (customCategories : List CustomCategory) :
    categorizeItem itemName customCategories =
      (match customCategories.find? (fun cat =>
          kwExactOrPhrase (jsTrim (jsLower itemName)) cat.keywords ||
          wordTokenMatch (jsTrim (jsLower itemName)) cat.keywords) with
        | some cat => cat.key
        | none => builtinCategorize (jsTrim (jsLower itemName))) := by
  rw [categorizeItem_def, categorizeCustom_eq_find]
  cases h : List.find? (fun cat =>
      kwExactOrPhrase (jsTrim (jsLower itemName)) cat.keywords ||
      wordTokenMatch (jsTrim (jsLower itemName)) cat.keywords) customCategories <;>
    simp [h]

/-- C5 counterexample: `"tofu beef"` contains the word `"tofu"`, the second
custom category carries the keyword `"tofu"`, and the name would match the
built-in keyword `"beef"` — but `categorizeItem` returns the key of the
first custom category (token match on `"beef"`), not the tofu category. -/
theorem categorize_tofu_counterexample :
    "tofu" ∈ (CustomCategory.mk "custom_tofu" "T" "#000000" ["tofu"] 1).keywords.map jsLower ∧
    "tofu" ∈ jsSplitWs (jsTrim (jsLower "tofu beef")) ∧
    categorizeItem "tofu beef" = "meat" ∧
    categorizeItem "tofu beef"
        [CustomCategory.mk "custom_x" "X" "#000000" ["beef"] 0,
         CustomCategory.mk "custom_tofu" "T" "#000000" ["tofu"] 1] =
      "custom_x" ∧
    "custom_x" ≠ "custom_tofu" := by
  refine ⟨by decide, by decide, by decide, by decide, by decide⟩

/-- A keyword list containing a lowercased match for the whole normalized
name makes the exact-or-phrase loop succeed. -/
theorem kwExactOrPhrase_of_exact (normalized : String) (kws : List String)
    (h : ∃ kw, kw ∈ kws ∧ jsLower kw = normalized) :
    kwExactOrPhrase normalized kws = true := by
  induction kws with
  | nil => simp at h
  | cons k rest ih =>
    rcases h with ⟨kw, hmem, hlow⟩
    rw [kwExactOrPhrase]
    rcases List.mem_cons.mp hmem with rfl | hmem'
    · simp [hlow]
    · split
      · rfl
      · split
        · rfl
        · exact ih ⟨kw, hmem', hlow⟩

/-- C5 amended: whenever some supplied custom category has the keyword
`"tofu"` (lowercased) and the normalized name is `"tofu"` or contains it as a
word, `categorizeItem` returns the key of one of the supplied custom
categories (the first matching one in caller order) — never a built-in key. -/
theorem categorize_tofu_returns_custom_key (itemName : String)
    (customCategories : List CustomCategory)
    (h1 : ∃ cat, cat ∈ customCategories ∧ "tofu" ∈ cat.keywords.map jsLower)
    (h2 : jsTrim (jsLower itemName) = "tofu" ∨
      "tofu" ∈ jsSplitWs (jsTrim (jsLower itemName))) :
    ∃ cat, cat ∈ customCategories ∧ categorizeItem itemName customCategories = cat.key := by
  rcases h1 with ⟨cat0, hmem0, htofu⟩
  rcases List.mem_map.mp htofu with ⟨kw0, hkw0, hlow0⟩
  have hmatch : (kwExactOrPhrase (jsTrim (jsLower itemName)) cat0.keywords ||
      wordTokenMatch (jsTrim (jsLower itemName)) cat0.keywords) = true := by
    rcases h2 with heq | hword
    · rw [Bool.or_eq_true]
      exact Or.inl (kwExactOrPhrase_of_exact _ _ ⟨kw0, hkw0, by rw [hlow0, heq]⟩)
    · rw [Bool.or_eq_true]
      refine Or.inr ?_
      unfold wordTokenMatch
      rw [List.any_eq_true]
      refine ⟨"tofu", hword, ?_⟩
      rw [List.any_eq_true]
      exact ⟨kw0, hkw0, by rw [hlow0]; decide⟩
  have hsome : (customCategories.find? (fun cat =>
      kwExactOrPhrase (jsTrim (jsLower itemName)) cat.keywords ||
      wordTokenMatch (jsTrim (jsLower itemName)) cat.keywords)).isSome := by
    rw [List.find?_isSome]
    exact ⟨cat0, hmem0, hmatch⟩
  rcases Option.isSome_iff_exists.mp hsome with ⟨cat1, hfind⟩
  refine ⟨cat1, List.mem_of_find?_eq_some hfind, ?_⟩
  rw [categorizeItem_def, categorizeCustom_eq_find, hfind]
  rfl

/-- C5 amended, applied at the counterexample input. -/
theorem categorize_tofu_returns_custom_key_witness :
    ∃ cat,
      cat ∈ [CustomCategory.mk "custom_x" "X" "#000000" ["beef"] 0,
             CustomCategory.mk "custom_tofu" "T" "#000000" ["tofu"] 1] ∧
      categorizeItem "tofu beef"
          [CustomCategory.mk "custom_x" "X" "#000000" ["beef"] 0,
           CustomCategory.mk "custom_tofu" "T" "#000000" ["tofu"] 1] =
        cat.key :=
  categorize_tofu_returns_custom_key "tofu beef" _
    ⟨CustomCategory.mk "custom_tofu" "T" "#000000" ["tofu"] 1, by decide, by decide⟩
    (Or.inr (by decide))

/-- Under the own-property idealization of the bracket accesses, the
categorizer is closed over the twelve built-in keys and the supplied custom
keys.  `categorizeItemJs_agrees` below shows the idealization is exact away
from the `Object.prototype` property names, so the prototype chain is the
only escape from this set — exhibited by `categorizeItem_prototype_leak`. -/
theorem categorizeItem_own_property_closed (itemName : String)
    (customCategories : List CustomCategory) :
    categorizeItem itemName customCategories ∈
      ["produce", "dairy", "meat", "bakery", "frozen", "pantry", "beverages",
       "snacks", "condiments", "household", "personal_care", "other"] ∨
    ∃ cat, cat ∈ customCategories ∧
      categorizeItem itemName customCategories = cat.key := by
  rcases h : categorizeCustom (jsTrim (jsLower itemName)) customCategories with _ | key
  · left
    have hb := builtinCategorize_mem (jsTrim (jsLower itemName))
    have hlist : CATEGORIES.map (fun q => q.2) =
        ["produce", "dairy", "meat", "bakery", "frozen", "pantry", "beverages",
         "snacks", "condiments", "household", "personal_care", "other"] := rfl
    rw [hlist] at hb
    have hval : categorizeItem itemName customCategories =
        builtinCategorize (jsTrim (jsLower itemName)) := by
      rw [categorizeItem_def, h]
    rw [hval]
    exact hb
  · right
    rcases categorizeCustom_some _ _ _ h with ⟨cat, hmem, hkey⟩
    refine ⟨cat, hmem, ?_⟩
    rw [categorizeItem_def, h, ← hkey]

/-- Every value stored in `KEYWORD_MAP` is a nonempty string (truthy). -/
theorem keywordMap_values_nonempty :
    KEYWORD_MAP.all (fun p => !p.2.isEmpty) = true := by
  decide

/-- An own-property hit on the keyword table yields a truthy string. -/
theorem kwLookup_value_nonempty (k v : String)
    (h : kwLookup KEYWORD_MAP k = some v) : (!v.isEmpty) = true := by
  rcases kwLookup_mem _ _ _ h with ⟨p, hp, hv⟩
  have := List.all_eq_true.mp keywordMap_values_nonempty p hp
  rw [← hv]
  exact this

/-- On words that are not `Object.prototype` property names, the word loop
under full access semantics agrees with its own-property idealization. -/
theorem firstWordHitJs_agrees (ws : List String)
    (hw : ∀ w ∈ ws, objectProtoNames.contains w = false) :
    firstWordHitJs ws =
      (match firstWordHit ws with
        | some v => JsProp.strVal v
        | none => JsProp.undefinedVal) := by
  induction ws with
  | nil => rfl
  | cons w rest ih =>
    have hw0 : objectProtoNames.contains w = false := hw w (List.mem_cons_self ..)
    have hwr : ∀ x ∈ rest, objectProtoNames.contains x = false :=
      fun x hx => hw x (List.mem_cons_of_mem _ hx)
    cases hx : kwLookup KEYWORD_MAP w with
    | some v =>
      have hne := kwLookup_value_nonempty w v hx
      simp only [firstWordHitJs, firstWordHit, jsIndexAccess, hx]
      simp [JsProp.truthy, hne]
    | none =>
      simp only [firstWordHitJs, firstWordHit, jsIndexAccess, hx, hw0]
      simp only [JsProp.truthy, Bool.false_eq_true, if_false]
      exact ih hwr

/-- When the normalized name and each of its words avoid the
`Object.prototype` property names, the built-in categorizer under full
access semantics returns exactly the idealized key. -/
theorem builtinCategorizeJs_agrees (normalized : String)
    (hn : objectProtoNames.contains normalized = false)
    (hw : ∀ w ∈ jsSplitWs normalized, objectProtoNames.contains w = false) :
    builtinCategorizeJs normalized = JsProp.strVal (builtinCategorize normalized) := by
  cases hx : kwLookup KEYWORD_MAP normalized with
  | some v =>
    have hne := kwLookup_value_nonempty normalized v hx
    simp only [builtinCategorizeJs, builtinCategorize, jsIndexAccess, hx]
    simp [JsProp.truthy, hne]
  | none =>
    simp only [builtinCategorizeJs, builtinCategorize, jsIndexAccess, hx, hn]
    cases hf : KEYWORD_MAP.find?
        (fun p => strContains p.1 " " && strContains normalized p.1) with
    | some p =>
      simp [JsProp.truthy, hf]
    | none =>
      simp only [JsProp.truthy, Bool.false_eq_true, if_false, hf]
      have hfw := firstWordHitJs_agrees (jsSplitWs normalized) hw
      cases hh : firstWordHit (jsSplitWs normalized) with
      | some c =>
        rw [hh] at hfw
        rcases firstWordHit_mem _ _ hh with ⟨p, hp, hv⟩
        have hne : (!c.isEmpty) = true := by
          have := List.all_eq_true.mp keywordMap_values_nonempty p hp
          rw [← hv]
          exact this
        simp [hfw, JsProp.truthy, hne]
      | none =>
        rw [hh] at hfw
        simp [hfw, JsProp.truthy]

/-- Away from the `Object.prototype` property names, the faithful model and
the own-property model of the categorizer coincide. -/
theorem categorizeItemJs_agrees (itemName : String) (customs : List CustomCategory)
    (hn : objectProtoNames.contains (jsTrim (jsLower itemName)) = false)
    (hw : ∀ w ∈ jsSplitWs (jsTrim (jsLower itemName)),
      objectProtoNames.contains w = false) :
    categorizeItemJs itemName customs = JsProp.strVal (categorizeItem itemName customs) := by
  have hdefJs : categorizeItemJs itemName customs =
      (match categorizeCustom (jsTrim (jsLower itemName)) customs with
        | some key => JsProp.strVal key
        | none => builtinCategorizeJs (jsTrim (jsLower itemName))) := rfl
  rw [hdefJs, categorizeItem_def]
  cases h : categorizeCustom (jsTrim (jsLower itemName)) customs with
  | some key => rfl
  | none => exact builtinCategorizeJs_agrees _ hn hw

/-- C9: the closedness claim fails on the real code.  A JS bracket access
consults `Object.prototype`, so `categorizeItem("constructor")` returns the
inherited truthy `constructor` member — a non-string value that is neither a
built-in key nor any custom key — contradicting the function's own
`@returns {string} The category key` documentation; likewise for
`"__proto__"` (exact access) and `"the constructor thing"` (word-loop
access).  On an ordinary name such as `"milk"` the faithful model still
returns the expected key. -/
theorem categorizeItem_prototype_leak :
    categorizeItemJs "constructor" = JsProp.inherited "constructor" ∧
    (categorizeItemJs "constructor").truthy = true ∧
    JsProp.isStrVal (categorizeItemJs "constructor") = false ∧
    categorizeItemJs "__proto__" = JsProp.inherited "__proto__" ∧
    categorizeItemJs "the constructor thing" = JsProp.inherited "constructor" ∧
    categorizeItemJs "milk" = JsProp.strVal "dairy" := by
  refine ⟨by decide, by decide, by decide, by decide, by decide, by decide⟩

/-- Unfolding lemma for `addSuggestion` with the `let` removed. -/
theorem addSuggestion_def (cn : List String) (st : List String × List Suggestion)
    (cand : String × String) :
    addSuggestion cn st cand =
      if cn.contains (jsLower cand.1) || st.1.contains (jsLower cand.1) then st
      else (jsLower cand.1 :: st.1,
        st.2 ++ [⟨cand.1, cand.2, categorizeItem cand.1⟩]) := rfl

/-- Unfolding lemma for `getSuggestionsFull`. -/
theorem getSuggestionsFull_def (history : List HistoryEntry) (current : List CurrentItem) :
    getSuggestionsFull history current =
      ((suggestionCandidates history current).foldl
        (addSuggestion (current.map (fun i => jsLower i.name))) ([], [])).2 := rfl

/-- One `addSuggestion` step preserves the dedup invariant: every accumulated
suggestion's lowercased name is in the `seen` set and outside the current
names, and the accumulated names are pairwise distinct after lowering. -/
theorem addSuggestion_inv (cn : List String) (st : List String × List Suggestion)
    (c : String × String)
    (h1 : ∀ s ∈ st.2, jsLower s.name ∈ st.1 ∧ jsLower s.name ∉ cn)
    (h2 : st.2.Pairwise (fun a b => jsLower a.name ≠ jsLower b.name)) :
    (∀ s ∈ (addSuggestion cn st c).2,
      jsLower s.name ∈ (addSuggestion cn st c).1 ∧ jsLower s.name ∉ cn) ∧
    (addSuggestion cn st c).2.Pairwise (fun a b => jsLower a.name ≠ jsLower b.name) := by
  rw [addSuggestion_def]
  split
  · exact ⟨h1, h2⟩
  · next h =>
    have hcn : jsLower c.1 ∉ cn := fun hm =>
      h (by rw [Bool.or_eq_true]; exact Or.inl (List.elem_iff.mpr hm))
    have hseen : jsLower c.1 ∉ st.1 := fun hm =>
      h (by rw [Bool.or_eq_true]; exact Or.inr (List.elem_iff.mpr hm))
    constructor
    · intro s hs
      rcases List.mem_append.mp hs with hs' | hs'
      · rcases h1 s hs' with ⟨ha, hb⟩
        exact ⟨List.mem_cons_of_mem _ ha, hb⟩
      · rcases List.mem_singleton.mp hs' with rfl
        exact ⟨List.mem_cons_self .., hcn⟩
    · rw [List.pairwise_append]
      refine ⟨h2, List.pairwise_singleton .., ?_⟩
      intro a ha b hb
      rcases List.mem_singleton.mp hb with rfl
      intro heq
      exact hseen (heq ▸ (h1 a ha).1)

/-- The dedup invariant is preserved through the whole candidate fold. -/
theorem foldl_addSuggestion_inv (cn : List String) (cands : List (String × String)) :
    ∀ st : List String × List Suggestion,
    (∀ s ∈ st.2, jsLower s.name ∈ st.1 ∧ jsLower s.name ∉ cn) →
    st.2.Pairwise (fun a b => jsLower a.name ≠ jsLower b.name) →
    (∀ s ∈ (cands.foldl (addSuggestion cn) st).2, jsLower s.name ∉ cn) ∧
    (cands.foldl (addSuggestion cn) st).2.Pairwise
      (fun a b => jsLower a.name ≠ jsLower b.name) := by
  induction cands with
  | nil =>
    intro st h1 h2
    exact ⟨fun s hs => (h1 s hs).2, h2⟩
  | cons c cs ih =>
    intro st h1 h2
    rw [List.foldl_cons]
    rcases addSuggestion_inv cn st c h1 h2 with ⟨h1', h2'⟩
    exact ih _ h1' h2'

/-- C3: no suggestion's lowercased name collides with a current item's
lowercased name, and no two suggestions in one result collide with each
other after lowercasing. -/
theorem suggestions_exclude_current_and_dups (history : List HistoryEntry)
    (current : List CurrentItem) (maxSuggestions : Nat) :
    (∀ s, s ∈ getSuggestions history current maxSuggestions →
      ∀ it, it ∈ current → jsLower s.name ≠ jsLower it.name) ∧
    (getSuggestions history current maxSuggestions).Pairwise
      (fun a b => jsLower a.name ≠ jsLower b.name) := by
  have hfull := foldl_addSuggestion_inv (current.map (fun i => jsLower i.name))
    (suggestionCandidates history current) ([], []) (by simp) (by simp)
  have htake : getSuggestions history current maxSuggestions =
      (getSuggestionsFull history current).take maxSuggestions := rfl
  constructor
  · intro s hs it hit heq
    have hs' : s ∈ getSuggestionsFull history current := by
      rw [htake] at hs
      exact List.mem_of_mem_take hs
    rw [getSuggestionsFull_def] at hs'
    exact hfull.1 s hs' (List.mem_map.mpr ⟨it, hit, heq.symm⟩)
  · rw [htake, getSuggestionsFull_def]
    exact hfull.2.sublist (List.take_sublist ..)

/-- C3 applied at a concrete input: the suggestion `"cereal"` produced for
current item `"Milk"` differs from it after lowercasing. -/
theorem suggestions_exclude_current_witness : jsLower "cereal" ≠ jsLower "Milk" :=
  (suggestions_exclude_current_and_dups [⟨"Bread", 0⟩, ⟨"Bread", 1⟩] [⟨"Milk"⟩] 8).1
    ⟨"cereal", "Often bought together", "pantry"⟩ (by decide) ⟨"Milk"⟩ (by decide)

/-- C8: the result never exceeds `maxSuggestions` entries, and when the three
sources produce no more than `maxSuggestions` accepted suggestions the list
is returned as-is, with no padding. -/
theorem getSuggestions_length_bounded (history : List HistoryEntry)
    (current : List CurrentItem) (maxSuggestions : Nat) :
    (getSuggestions history current maxSuggestions).length ≤ maxSuggestions ∧
    ((getSuggestionsFull history current).length ≤ maxSuggestions →
      getSuggestions history current maxSuggestions = getSuggestionsFull history current) := by
  constructor
  · exact List.length_take_le ..
  · intro h
    exact List.take_of_length_le h

/-- C8 applied at a concrete input. -/
theorem getSuggestions_length_bounded_witness :
    (getSuggestions [] [] 8).length ≤ 8 ∧
    getSuggestions [] [] 8 = getSuggestionsFull [] [] :=
  ⟨(getSuggestions_length_bounded [] [] 8).1,
   (getSuggestions_length_bounded [] [] 8).2 (by decide)⟩

/-- An `addSuggestion` step either keeps the output or appends the candidate. -/
theorem addSuggestion_out_cases (cn : List String) (st : List String × List Suggestion)
    (c : String × String) :
    (addSuggestion cn st c).2 = st.2 ∨
    (addSuggestion cn st c).2 = st.2 ++ [⟨c.1, c.2, categorizeItem c.1⟩] := by
  rw [addSuggestion_def]
  split
  · exact Or.inl rfl
  · exact Or.inr rfl

/-- The fold only ever appends to the suggestion output. -/
theorem foldl_addSuggestion_out_mono (cn : List String) (cands : List (String × String)) :
    ∀ st : List String × List Suggestion,
      ∃ t, (cands.foldl (addSuggestion cn) st).2 = st.2 ++ t := by
  induction cands with
  | nil =>
    intro st
    exact ⟨[], by simp⟩
  | cons c cs ih =>
    intro st
    rw [List.foldl_cons]
    rcases ih (addSuggestion cn st c) with ⟨t2, h2⟩
    rcases addSuggestion_out_cases cn st c with hc | hc
    · exact ⟨t2, by rw [h2, hc]⟩
    · exact ⟨[⟨c.1, c.2, categorizeItem c.1⟩] ++ t2, by rw [h2, hc, List.append_assoc]⟩

/-- Unfolding lemma for `suggestionCandidates` with the `let`s removed. -/
theorem suggestionCandidates_def (history : List HistoryEntry) (current : List CurrentItem) :
    suggestionCandidates history current =
      (getPairingSuggestions current).map (fun name => (name, "Often bought together")) ++
        (((sortDescByCount (getItemFrequency history)).take 20).filter
          (fun p => 2 ≤ p.2)).map (fun p => (p.1, freqReason p.2)) ++
        (dedupFirst (((history.drop (history.length - 30)).reverse).map
          (fun i => i.name))).map (fun name => (name, "Recently purchased")) := rfl

/-- C4: whenever the current list contains `"bread"` (lowercased) and no
`"butter"`, the bread–butter pairing is the very first entry in the pairing
table, so `"butter"` with reason `"Often bought together"` is the head of the
result (with the default `maxSuggestions`), and every frequency or recency
suggestion sits at a strictly later position. -/
theorem butter_suggested_first (history : List HistoryEntry) (current : List CurrentItem)
    (h1 : ∃ it, it ∈ current ∧ jsLower it.name = "bread")
    (h2 : ∀ it, it ∈ current → jsLower it.name ≠ "butter") :
    (getSuggestions history current).head? =
      some ⟨"butter", "Often bought together", "dairy"⟩ ∧
    (∀ j s, (getSuggestions history current)[j]? = some s →
      ((∃ n, s.reason = freqReason n) ∨ s.reason = "Recently purchased") → 0 < j) := by
  have hbread : (current.map (fun i => jsLower i.name)).contains "bread" = true := by
    rcases h1 with ⟨it, hmem, hlow⟩
    exact List.elem_iff.mpr (List.mem_map.mpr ⟨it, hmem, hlow⟩)
  have hbutter : (current.map (fun i => jsLower i.name)).contains "butter" = false := by
    cases hcb : (current.map (fun i => jsLower i.name)).contains "butter" with
    | false => rfl
    | true =>
      exfalso
      rcases List.mem_map.mp (List.elem_iff.mp hcb) with ⟨it, hmem, hlow⟩
      exact h2 it hmem hlow
  have hpairdef : getPairingSuggestions current =
      ITEM_PAIRINGS.flatMap (fun p =>
        (if (current.map (fun i => jsLower i.name)).contains p.1 &&
            !(current.map (fun i => jsLower i.name)).contains p.2 then [p.2] else []) ++
        (if (current.map (fun i => jsLower i.name)).contains p.2 &&
            !(current.map (fun i => jsLower i.name)).contains p.1 then [p.1] else [])) := rfl
  obtain ⟨rest, hpair⟩ : ∃ rest, getPairingSuggestions current = "butter" :: rest := by
    rw [hpairdef]
    show ∃ rest, (("bread", "butter") :: ITEM_PAIRINGS.drop 1).flatMap _ = "butter" :: rest
    rw [List.flatMap_cons]
    simp only [hbread, hbutter]
    simp only [Bool.not_false, Bool.not_true, Bool.and_true, Bool.and_false,
      Bool.true_and, Bool.false_and, if_true, if_false]
    exact ⟨_, rfl⟩
  obtain ⟨restC, hcands⟩ : ∃ restC, suggestionCandidates history current =
      ("butter", "Often bought together") :: restC := by
    rw [suggestionCandidates_def, hpair, List.map_cons, List.cons_append, List.cons_append]
    exact ⟨_, rfl⟩
  have hkey : jsLower "butter" = "butter" := by decide
  have hcat : categorizeItem "butter" = "dairy" := by decide
  have hstep : addSuggestion (current.map (fun i => jsLower i.name)) ([], [])
      ("butter", "Often bought together") =
      (["butter"], [⟨"butter", "Often bought together", "dairy"⟩]) := by
    rw [addSuggestion_def]
    simp only [hkey, hbutter, hcat]
    simp
  obtain ⟨t, hfull⟩ : ∃ t, getSuggestionsFull history current =
      ⟨"butter", "Often bought together", "dairy"⟩ :: t := by
    rw [getSuggestionsFull_def, hcands, List.foldl_cons, hstep]
    rcases foldl_addSuggestion_out_mono (current.map (fun i => jsLower i.name)) restC
        (["butter"], [⟨"butter", "Often bought together", "dairy"⟩]) with ⟨t, ht⟩
    exact ⟨t, by rw [ht]; rfl⟩
  have hres : getSuggestions history current =
      ⟨"butter", "Often bought together", "dairy"⟩ :: t.take 7 := by
    show (getSuggestionsFull history current).take 8 = _
    rw [hfull]
    rfl
  constructor
  · rw [hres]
    rfl
  · intro j s hj hreason
    rcases j with _ | j
    · rw [hres, List.getElem?_cons_zero] at hj
      have hs := Option.some.inj hj

      exfalso
      rcases hreason with ⟨n, hn⟩ | hn
      · rw [← hs] at hn
        exact often_ne_freq n hn
      · rw [← hs] at hn
        exact absurd hn (by decide)
    · omega

/-- C4 applied at a concrete input. -/
theorem butter_suggested_first_witness :
    (getSuggestions [] [⟨"Bread"⟩]).head? =
      some ⟨"butter", "Often bought together", "dairy"⟩ :=
  (butter_suggested_first [] [⟨"Bread"⟩]
    ⟨⟨"Bread"⟩, List.mem_singleton.mpr rfl, by decide⟩
    (fun it hit => by
      rcases List.mem_singleton.mp hit with rfl
      decide)).1

/-- Every suggestion in the fold output is an initial suggestion or carries a
candidate's name and reason. -/
theorem addSuggestion_out_from (cn : List String) (st : List String × List Suggestion)
    (c : String × String) (s : Suggestion) (hs : s ∈ (addSuggestion cn st c).2) :
    s ∈ st.2 ∨ (s.name = c.1 ∧ s.reason = c.2) := by
  rcases addSuggestion_out_cases cn st c with hc | hc
  · rw [hc] at hs
    exact Or.inl hs
  · rw [hc] at hs
    rcases List.mem_append.mp hs with h | h
    · exact Or.inl h
    · rcases List.mem_singleton.mp h with rfl
      exact Or.inr ⟨rfl, rfl⟩

/-- Provenance through the whole fold. -/
theorem foldl_addSuggestion_from_cands (cn : List String) (cands : List (String × String)) :
    ∀ st s, s ∈ (cands.foldl (addSuggestion cn) st).2 →
      s ∈ st.2 ∨ ∃ c, c ∈ cands ∧ s.name = c.1 ∧ s.reason = c.2 := by
  induction cands with
  | nil =>
    intro st s hs
    exact Or.inl hs
  | cons c cs ih =>
    intro st s hs
    rw [List.foldl_cons] at hs
    rcases ih _ s hs with h | ⟨c', hc', hnr⟩
    · rcases addSuggestion_out_from cn st c s h with h' | hnr
      · exact Or.inl h'
      · exact Or.inr ⟨c, List.mem_cons_self .., hnr⟩
    · exact Or.inr ⟨c', List.mem_cons_of_mem _ hc', hnr⟩

/-- `bumpFreq` preserves a key property when the new key has it. -/
theorem bumpFreq_keys (P : String → Prop) (key : String) (hk : P key) :
    ∀ m, (∀ p ∈ m, P p.1) → ∀ p ∈ bumpFreq m key, P p.1 := by
  intro m
  induction m with
  | nil =>
    intro _ p hp
    rcases List.mem_singleton.mp hp with rfl
    exact hk
  | cons q rest ih =>
    intro hm p hp
    rcases q with ⟨k, c⟩
    simp only [bumpFreq] at hp
    split at hp
    · rcases List.mem_cons.mp hp with rfl | hp'
      · exact hm (k, c) (List.mem_cons_self ..)
      · exact hm p (List.mem_cons_of_mem _ hp')
    · rcases List.mem_cons.mp hp with rfl | hp'
      · exact hm (k, c) (List.mem_cons_self ..)
      · exact ih (fun p hp => hm p (List.mem_cons_of_mem _ hp)) p hp'

/-- Every key in the frequency map is an already-lowercased history name. -/
theorem getItemFrequency_keys (history : List HistoryEntry) :
    ∀ p ∈ getItemFrequency history, jsLower p.1 = p.1 := by
  have hgen : ∀ (hist : List HistoryEntry) (m : List (String × Nat)),
      (∀ p ∈ m, jsLower p.1 = p.1) →
      ∀ p ∈ hist.foldl (fun freq item => bumpFreq freq (jsLower item.name)) m,
        jsLower p.1 = p.1 := by
    intro hist
    induction hist with
    | nil => exact fun m hm => hm
    | cons e rest ih =>
      intro m hm
      rw [List.foldl_cons]
      exact ih _ (bumpFreq_keys (fun k => jsLower k = k) _ (jsLower_idem e.name) m hm)
  exact hgen history [] (by simp)

/-- Insertion produces no new entries. -/
theorem insertDescByCount_mem (x : String × Nat) (l : List (String × Nat)) :
    ∀ p ∈ insertDescByCount x l, p = x ∨ p ∈ l := by
  induction l with
  | nil =>
    intro p hp
    exact Or.inl (List.mem_singleton.mp hp)
  | cons y ys ih =>
    intro p hp
    simp only [insertDescByCount] at hp
    split at hp
    · rcases List.mem_cons.mp hp with rfl | hp'
      · exact Or.inr (List.mem_cons_self ..)
      · rcases ih p hp' with h | h
        · exact Or.inl h
        · exact Or.inr (List.mem_cons_of_mem _ h)
    · rcases List.mem_cons.mp hp with rfl | hp'
      · exact Or.inl rfl
      · exact Or.inr hp'

/-- Sorting produces no new entries. -/
theorem sortDescByCount_mem (l : List (String × Nat)) :
    ∀ p ∈ sortDescByCount l, p ∈ l := by
  have hgen : ∀ (rest acc : List (String × Nat)), (∀ p ∈ acc, p ∈ l) → (∀ p ∈ rest, p ∈ l) →
      ∀ p ∈ rest.foldl (fun acc x => insertDescByCount x acc) acc, p ∈ l := by
    intro rest
    induction rest with
    | nil => exact fun acc hacc _ => hacc
    | cons x xs ih =>
      intro acc hacc hrest
      rw [List.foldl_cons]
      apply ih
      · intro p hp
        rcases insertDescByCount_mem x acc p hp with heq | h
        · rw [heq]
          exact hrest x (List.mem_cons_self ..)
        · exact hacc p h
      · exact fun p hp => hrest p (List.mem_cons_of_mem _ hp)
  exact fun p hp => hgen l [] (by simp) (fun p hp => hp) p hp

/-- Deduplication produces no new entries. -/
theorem dedupFirstAux_sub (l : List String) :
    ∀ seen x, x ∈ dedupFirstAux seen l → x ∈ l := by
  induction l with
  | nil =>
    intro seen x hx
    simp [dedupFirstAux] at hx
  | cons y ys ih =>
    intro seen x hx
    simp only [dedupFirstAux] at hx
    split at hx
    · exact List.mem_cons_of_mem _ (ih seen x hx)
    · rcases List.mem_cons.mp hx with rfl | hx'
      · exact List.mem_cons_self ..
      · exact List.mem_cons_of_mem _ (ih _ x hx')

/-- Every pairing suggestion names one half of a pairing-table entry. -/
theorem getPairingSuggestions_sub (current : List CurrentItem) :
    ∀ x ∈ getPairingSuggestions current,
      x ∈ ITEM_PAIRINGS.flatMap (fun p => [p.1, p.2]) := by
  intro x hx
  have hdef : getPairingSuggestions current =
      ITEM_PAIRINGS.flatMap (fun p =>
        (if (current.map (fun i => jsLower i.name)).contains p.1 &&
            !(current.map (fun i => jsLower i.name)).contains p.2 then [p.2] else []) ++
        (if (current.map (fun i => jsLower i.name)).contains p.2 &&
            !(current.map (fun i => jsLower i.name)).contains p.1 then [p.1] else [])) := rfl
  rw [hdef] at hx
  rcases List.mem_flatMap.mp hx with ⟨p, hp, hxp⟩
  apply List.mem_flatMap.mpr
  refine ⟨p, hp, ?_⟩
  rcases List.mem_append.mp hxp with h | h
  · split at h
    · rcases List.mem_singleton.mp h with rfl
      exact List.mem_cons_of_mem _ (List.mem_singleton.mpr rfl)
    · simp at h
  · split at h
    · rcases List.mem_singleton.mp h with rfl
      exact List.mem_cons_self ..
    · simp at h

/-- Characterization of the three candidate sources by their reason string. -/
theorem suggestionCandidates_cases (history : List HistoryEntry) (current : List CurrentItem) :
    ∀ c ∈ suggestionCandidates history current,
      (c.2 = "Often bought together" ∧ c.1 ∈ ITEM_PAIRINGS.flatMap (fun p => [p.1, p.2])) ∨
      ((∃ n, c.2 = freqReason n) ∧ jsLower c.1 = c.1) ∨
      (c.2 = "Recently purchased" ∧ ∃ e, e ∈ history ∧ c.1 = e.name) := by
  intro c hc
  rw [suggestionCandidates_def] at hc
  rcases List.mem_append.mp hc with hc' | hrec
  · rcases List.mem_append.mp hc' with hpair | hfreq
    · left
      rcases List.mem_map.mp hpair with ⟨name, hname, rfl⟩
      exact ⟨rfl, getPairingSuggestions_sub current name hname⟩
    · right
      left
      rcases List.mem_map.mp hfreq with ⟨p, hp, rfl⟩
      have hp1 : p ∈ sortDescByCount (getItemFrequency history) :=
        List.mem_of_mem_take (List.mem_of_mem_filter hp)
      exact ⟨⟨p.2, rfl⟩, getItemFrequency_keys history p (sortDescByCount_mem _ p hp1)⟩
  · right
    right
    rcases List.mem_map.mp hrec with ⟨name, hname, rfl⟩
    have h1 : name ∈ ((history.drop (history.length - 30)).reverse).map (fun i => i.name) :=
      dedupFirstAux_sub _ [] name hname
    rcases List.mem_map.mp h1 with ⟨e, he, hename⟩
    exact ⟨rfl, e, List.mem_of_mem_drop (List.mem_reverse.mp he), hename.symm⟩

/-- C10: every frequency suggestion (`"Purchased N times before"`) carries a
name equal to its own lowercasing, because frequency counting keys on
lowercased history names; pairing suggestions carry a name straight from the
pairing table and recency suggestions the exact casing of a history entry. -/
theorem suggestion_name_provenance (history : List HistoryEntry) (current : List CurrentItem)
    (maxSuggestions : Nat) (s : Suggestion)
    (hs : s ∈ getSuggestions history current maxSuggestions) :
    ((∃ n, s.reason = freqReason n) → jsLower s.name = s.name) ∧
    (s.reason = "Often bought together" →
      s.name ∈ ITEM_PAIRINGS.flatMap (fun p => [p.1, p.2])) ∧
    (s.reason = "Recently purchased" → ∃ e, e ∈ history ∧ s.name = e.name) := by
  have hs' : s ∈ getSuggestionsFull history current := List.mem_of_mem_take hs
  rw [getSuggestionsFull_def] at hs'
  rcases foldl_addSuggestion_from_cands _ _ _ s hs' with h0 | ⟨c, hc, hn, hr⟩
  · simp at h0
  rcases suggestionCandidates_cases history current c hc with
    ⟨hrp, hnp⟩ | ⟨⟨n, hrf⟩, hlf⟩ | ⟨hrr, e, he, hne⟩
  · refine ⟨?_, ?_, ?_⟩
    · rintro ⟨m, hfr⟩
      rw [hr, hrp] at hfr
      exact absurd hfr (often_ne_freq m)
    · intro _
      rw [hn]
      exact hnp
    · intro hrec
      rw [hr, hrp] at hrec
      exact absurd hrec (by decide)
  · refine ⟨?_, ?_, ?_⟩
    · intro _
      rw [hn]
      exact hlf
    · intro hob
      rw [hr, hrf] at hob
      exact absurd hob.symm (often_ne_freq n)
    · intro hrec
      rw [hr, hrf] at hrec
      exact absurd hrec.symm (recent_ne_freq n)
  · refine ⟨?_, ?_, ?_⟩
    · rintro ⟨m, hfr⟩
      rw [hr, hrr] at hfr
      exact absurd hfr (recent_ne_freq m)
    · intro hob
      rw [hr, hrr] at hob
      exact absurd hob (by decide)
    · intro _
      exact ⟨e, he, by rw [hn, hne]⟩

/-- C10 applied at a concrete input: the frequency suggestion produced from
the capitalized history entries `"Milk"` is named `"milk"`, already
lowercase. -/
theorem suggestion_name_provenance_witness : jsLower "milk" = "milk" :=
  (suggestion_name_provenance [⟨"Milk", 0⟩, ⟨"Milk", 1⟩] [] 8
    ⟨"milk", "Purchased 2 times before", "dairy"⟩ (by decide)).1 ⟨2, by decide⟩

end ShoppingListAI
